import Mathlib

/-!
Shallow embedding of the LZ77 encoder in `src/Rust/src/lz77.rs`.

Bytes are modelled as `Nat` (values 0..255 in practice), byte buffers as
`List Nat`.  Rust `usize` is modelled as `Nat`; the one place its width
matters is `usize::to_le_bytes()` in `write_header`, which on the 64-bit
target yields 8 bytes, modelled explicitly below.  All `usize`
subtractions performed by the source are in bounds at every reachable
call site except `pos.saturating_sub(window_size)`, which is Rust
saturating subtraction and coincides with truncated `Nat` subtraction.
-/

namespace LZ77

/-- Magic bytes of the format: the constant `LZ77_MAGIC = b"LZ77R"`
(5 bytes: `L`, `Z`, `7`, `7`, `R`). -/
def LZ77_MAGIC : List Nat := [76, 90, 55, 55, 82]

/-- The constant `LZ77_MIN_MATCH_LEN = 3`. -/
def LZ77_MIN_MATCH_LEN : Nat := 3

/-- Little-endian bytes of a Rust `usize` value on the 64-bit target:
`usize::to_le_bytes()` yields 8 bytes. -/
def usizeLeBytes (n : Nat) : List Nat :=
  [n % 256, n / 256 % 256, n / 256 ^ 2 % 256, n / 256 ^ 3 % 256,
   n / 256 ^ 4 % 256, n / 256 ^ 5 % 256, n / 256 ^ 6 % 256, n / 256 ^ 7 % 256]

/-- Little-endian bytes of a Rust `u16` value: `u16::to_le_bytes()`. -/
def u16LeBytes (n : Nat) : List Nat := [n % 256, n / 256 % 256]

/-- Bytes written by `write_header`: the 5 magic bytes, then
`window_szie.to_le_bytes()` and `max_match_len.to_le_bytes()`, both
arguments being `usize` (8 bytes each on the 64-bit target). -/
def headerBytes (windowSize maxMatchLen : Nat) : List Nat :=
  LZ77_MAGIC ++ usizeLeBytes windowSize ++ usizeLeBytes maxMatchLen

/-- Value returned by `write_header`: the literal `Ok(10)` in the source. -/
def headerCount : Nat := 10

/-- The `while` loop of `compute_match_length`.  `remaining` counts the
iterations still allowed by the guard `length < max_possible`, so it
stands for `max_possible - length`; the loop body advances `length`
while the bytes at `candidate + length` and `pos + length` agree. -/
def cmlGo (input : List Nat) (candidate pos : Nat) : Nat → Nat → Nat
  | length, 0 => length
  | length, remaining + 1 =>
      if input.getD (candidate + length) 0 = input.getD (pos + length) 0 then
        cmlGo input candidate pos (length + 1) remaining
      else length

/-- `compute_match_length`: the length of the common run of
`input[candidate ..]` and `input[pos ..]`, capped at
`max_len.min(input.len() - pos)`. -/
def computeMatchLength (input : List Nat) (candidate pos maxLen : Nat) : Nat :=
  cmlGo input candidate pos 0 (min maxLen (input.length - pos))

/-- The candidate loop of `find_longest_match`: scans the candidate list
left to right, replacing the current best `(best_offset, best_length)`
only when a candidate's length is strictly greater. -/
def flmLoop (input : List Nat) (pos maxMatchLen : Nat) :
    List Nat → Nat × Nat → Nat × Nat
  | [], best => best
  | c :: rest, best =>
      if computeMatchLength input c pos maxMatchLen > best.2 then
        flmLoop input pos maxMatchLen rest (pos - c, computeMatchLength input c pos maxMatchLen)
      else
        flmLoop input pos maxMatchLen rest best

/-- `find_longest_match`: scans every candidate in
`[pos.saturating_sub(window_size), pos)` and returns the best
`(offset, length)` pair, starting from `(0, 0)`. -/
def findLongestMatch (input : List Nat) (pos windowSize maxMatchLen : Nat) : Nat × Nat :=
  flmLoop input pos maxMatchLen
    (List.range' (pos - windowSize) (pos - (pos - windowSize))) (0, 0)

/-- A token as decided by the `compress` loop, before byte serialization
by `emit_literal_token` / `emit_reference_token`. -/
inductive Token where
  | literal : Nat → Token
  | reference : Nat → Nat → Token
deriving DecidableEq

/-- Byte serialization of a token: `emit_literal_token` writes
`[0x00, byte]`; `emit_reference_token` writes `0x01` followed by the
`u16` little-endian offset and length.  The `% 65536` is the `as u16`
cast at the call site in `compress`. -/
def tokenBytes : Token → List Nat
  | .literal b => [0, b]
  | .reference o l => 1 :: (u16LeBytes (o % 65536) ++ u16LeBytes (l % 65536))

/-- Byte count returned by the emit functions: `Ok(2)` for a literal
token, `Ok(5)` for a reference token. -/
def tokenCount : Token → Nat
  | .literal _ => 2
  | .reference _ _ => 5

/-- Position reached after one iteration of the `compress` loop run at
`pos`: a match of length `≥ LZ77_MIN_MATCH_LEN` advances by the match
length plus one more for the mandatory literal when bytes remain;
otherwise the loop advances by one. -/
def nextPos (input : List Nat) (windowSize maxMatchLen pos : Nat) : Nat :=
  if LZ77_MIN_MATCH_LEN ≤ (findLongestMatch input pos windowSize maxMatchLen).2 then
    if pos + (findLongestMatch input pos windowSize maxMatchLen).2 < input.length then
      pos + (findLongestMatch input pos windowSize maxMatchLen).2 + 1
    else
      pos + (findLongestMatch input pos windowSize maxMatchLen).2
  else
    pos + 1

/-- Tokens emitted by one iteration of the `compress` loop run at `pos`:
a reference (followed by the mandatory literal when bytes remain) when
the match length reaches `LZ77_MIN_MATCH_LEN`, else a single literal. -/
def stepTokens (input : List Nat) (windowSize maxMatchLen pos : Nat) : List Token :=
  if LZ77_MIN_MATCH_LEN ≤ (findLongestMatch input pos windowSize maxMatchLen).2 then
    Token.reference (findLongestMatch input pos windowSize maxMatchLen).1
        (findLongestMatch input pos windowSize maxMatchLen).2 ::
      (if pos + (findLongestMatch input pos windowSize maxMatchLen).2 < input.length then
        [Token.literal (input.getD (pos + (findLongestMatch input pos windowSize maxMatchLen).2) 0)]
      else [])
  else
    [Token.literal (input.getD pos 0)]

/-- The `while pos < input.len()` loop of `compress`, as the sequence of
tokens it emits from position `pos` onward. -/
def compressTokensFrom (input : List Nat) (windowSize maxMatchLen pos : Nat) : List Token :=
  if _h : pos < input.length then
    stepTokens input windowSize maxMatchLen pos ++
      compressTokensFrom input windowSize maxMatchLen (nextPos input windowSize maxMatchLen pos)
  else []
termination_by input.length - pos
decreasing_by
  unfold nextPos LZ77_MIN_MATCH_LEN
  split
  · split <;> omega
  · omega

/-- `compress` starts its loop at position `0`. -/
def compressTokens (input : List Nat) (windowSize maxMatchLen : Nat) : List Token :=
  compressTokensFrom input windowSize maxMatchLen 0

/-- Fuel-indexed evaluation mirror of `compressTokensFrom`; each unit of
fuel allows one loop iteration, and `input.length - pos` units always
suffice because every iteration advances `pos`. -/
def compressGo (input : List Nat) (windowSize maxMatchLen : Nat) : Nat → Nat → List Token
  | 0, _ => []
  | fuel + 1, pos =>
      if pos < input.length then
        stepTokens input windowSize maxMatchLen pos ++
          compressGo input windowSize maxMatchLen fuel (nextPos input windowSize maxMatchLen pos)
      else []

/-- Bytes `compress` writes to the sink: the serialized token stream. -/
def compressBody (input : List Nat) (windowSize maxMatchLen : Nat) : List Nat :=
  ((compressTokens input windowSize maxMatchLen).map tokenBytes).flatten

/-- Value `compress` returns: the sum of the emit functions' returned
byte counts accumulated in `bytes_written`. -/
def compressBodyCount (input : List Nat) (windowSize maxMatchLen : Nat) : Nat :=
  ((compressTokens input windowSize maxMatchLen).map tokenCount).sum

/-- Bytes `compress_bytes` writes: the header then the token stream. -/
def compressBytesWritten (input : List Nat) (windowSize maxMatchLen : Nat) : List Nat :=
  headerBytes windowSize maxMatchLen ++ compressBody input windowSize maxMatchLen

/-- Value `compress_bytes` returns: `write_header`'s returned `10` plus
`compress`'s returned count. -/
def compressBytesCount (input : List Nat) (windowSize maxMatchLen : Nat) : Nat :=
  headerCount + compressBodyCount input windowSize maxMatchLen

/-- Bytes `compress_str` writes: it calls `compress` on `s.as_bytes()`
directly, writing no header.  A `&str` is modelled as its UTF-8 bytes. -/
def compressStrWritten (s : List Nat) (windowSize maxMatchLen : Nat) : List Nat :=
  compressBody s windowSize maxMatchLen

/-- Value `compress_str` returns: `compress`'s returned count. -/
def compressStrCount (s : List Nat) (windowSize maxMatchLen : Nat) : Nat :=
  compressBodyCount s windowSize maxMatchLen

/-- Modelled from the spec: no decoder exists in the source; spec §4.3
defines the byte-at-a-time overlapping copy of a reference token.  Each
copied byte is read from `output[current_output_length - offset]` at the
time of that individual byte's append. -/
def copyBack (offset : Nat) : Nat → List Nat → List Nat
  | 0, out => out
  | n + 1, out => copyBack offset n (out ++ [out.getD (out.length - offset) 0])

/-- Modelled from the spec: the token-replay loop of the §4.3 decoder.
A literal token appends its byte; a reference token reads a 2-byte
little-endian offset and length and copies byte-at-a-time; a truncated
token, an unknown discriminator, or a reference whose offset does not
point into the already-decoded output (offset `0` or beyond the current
output length) is a corruption error. -/
def decodeTokens : List Nat → List Nat → Option (List Nat)
  | [], out => some out
  | 0 :: b :: rest, out => decodeTokens rest (out ++ [b])
  | 1 :: o1 :: o2 :: l1 :: l2 :: rest, out =>
      if 1 ≤ o1 + 256 * o2 ∧ o1 + 256 * o2 ≤ out.length then
        decodeTokens rest (copyBack (o1 + 256 * o2) (l1 + 256 * l2) out)
      else none
  | _, _ => none

/-- Modelled from the spec: the §4.3 decoder.  Per §6 the header is
exactly 10 bytes — magic at offset 0 (5 bytes), then the two advisory
`u16` fields — and tokens start at offset 10.  A truncated header or a
magic mismatch is rejected; otherwise the tokens are replayed. -/
def decode (stream : List Nat) : Option (List Nat) :=
  if 10 ≤ stream.length ∧ stream.take 5 = LZ77_MAGIC then
    decodeTokens (stream.drop 10) []
  else none

/-! ## Helper lemmas -/

lemma cmlGo_le (input : List Nat) (candidate pos : Nat) :
    ∀ remaining length, cmlGo input candidate pos length remaining ≤ length + remaining := by
  intro remaining
  induction remaining with
  | zero => intro length; simp [cmlGo]
  | succ r ih =>
    intro length
    simp only [cmlGo]
    split
    · have := ih (length + 1)
      omega
    · omega

lemma computeMatchLength_le (input : List Nat) (candidate pos maxLen : Nat) :
    computeMatchLength input candidate pos maxLen ≤ min maxLen (input.length - pos) := by
  have := cmlGo_le input candidate pos (min maxLen (input.length - pos)) 0
  simpa [computeMatchLength] using this

/-- Characterization of the candidate loop: either no candidate beats the
incoming best and the best is returned unchanged, or the result belongs
to the first candidate that attains the (strictly improved) maximum:
every candidate scanned before it is strictly shorter and every one
scanned after it is no longer. -/
lemma flmLoop_char (input : List Nat) (pos m : Nat) :
    ∀ (cands : List Nat) (best : Nat × Nat),
      (flmLoop input pos m cands best = best ∧
        ∀ c ∈ cands, computeMatchLength input c pos m ≤ best.2) ∨
      (∃ c l1 l2, cands = l1 ++ c :: l2 ∧
        flmLoop input pos m cands best = (pos - c, computeMatchLength input c pos m) ∧
        best.2 < computeMatchLength input c pos m ∧
        (∀ c' ∈ l1, computeMatchLength input c' pos m < computeMatchLength input c pos m) ∧
        (∀ c' ∈ l2, computeMatchLength input c' pos m ≤ computeMatchLength input c pos m)) := by
  intro cands
  induction cands with
  | nil =>
    intro best
    left
    exact ⟨rfl, by intro c hc; exact absurd hc (List.not_mem_nil c)⟩
  | cons a rest ih =>
    intro best
    by_cases ha : best.2 < computeMatchLength input a pos m
    · have hstep : flmLoop input pos m (a :: rest) best =
          flmLoop input pos m rest (pos - a, computeMatchLength input a pos m) := by
        simp only [flmLoop, gt_iff_lt, if_pos ha]
      rcases ih (pos - a, computeMatchLength input a pos m) with
        ⟨heq, hle⟩ | ⟨c, l1, l2, hsplit, heq, hlt, hl1, hl2⟩
      · right
        refine ⟨a, [], rest, rfl, by rw [hstep, heq], ha, ?_, ?_⟩
        · intro c' hc'
          exact absurd hc' (List.not_mem_nil c')
        · intro c' hc'
          exact hle c' hc'
      · right
        have hac : computeMatchLength input a pos m < computeMatchLength input c pos m := hlt
        refine ⟨c, a :: l1, l2, by simp [hsplit], by rw [hstep, heq], lt_trans ha hac, ?_, hl2⟩
        intro c' hc'
        rcases List.mem_cons.mp hc' with h | h
        · subst h
          exact hac
        · exact hl1 c' h
    · have ha' : computeMatchLength input a pos m ≤ best.2 := by omega
      have hstep : flmLoop input pos m (a :: rest) best = flmLoop input pos m rest best := by
        simp only [flmLoop, gt_iff_lt, if_neg ha]
      rcases ih best with ⟨heq, hle⟩ | ⟨c, l1, l2, hsplit, heq, hlt, hl1, hl2⟩
      · left
        refine ⟨by rw [hstep, heq], ?_⟩
        intro c' hc'
        rcases List.mem_cons.mp hc' with h | h
        · subst h
          exact ha'
        · exact hle c' h
      · right
        refine ⟨c, a :: l1, l2, by simp [hsplit], by rw [hstep, heq], hlt, ?_, hl2⟩
        intro c' hc'
        rcases List.mem_cons.mp hc' with h | h
        · subst h
          exact lt_of_le_of_lt ha' hlt
        · exact hl1 c' h

/-- Characterization of `find_longest_match` over the window
`[pos.saturating_sub(window_size), pos)`: it returns `(0, 0)` with no
candidate matching at all, or the match of the first (leftmost, hence
farthest, largest-offset) candidate attaining the maximum length. -/
lemma findLongestMatch_char (input : List Nat) (pos w m : Nat) :
    (findLongestMatch input pos w m = (0, 0) ∧
      ∀ c, pos - w ≤ c → c < pos → computeMatchLength input c pos m = 0) ∨
    (∃ c, pos - w ≤ c ∧ c < pos ∧
      findLongestMatch input pos w m = (pos - c, computeMatchLength input c pos m) ∧
      0 < computeMatchLength input c pos m ∧
      (∀ c', pos - w ≤ c' → c' < c →
        computeMatchLength input c' pos m < computeMatchLength input c pos m) ∧
      (∀ c', pos - w ≤ c' → c' < pos →
        computeMatchLength input c' pos m ≤ computeMatchLength input c pos m)) := by
  have hmem : ∀ x, x ∈ List.range' (pos - w) (pos - (pos - w)) ↔ pos - w ≤ x ∧ x < pos := by
    intro x
    rw [List.mem_range'_1]
    omega
  rcases flmLoop_char input pos m (List.range' (pos - w) (pos - (pos - w))) (0, 0) with
    ⟨heq, hle⟩ | ⟨c, l1, l2, hsplit, heq, hlt, hl1, hl2⟩
  · left
    refine ⟨heq, ?_⟩
    intro c h1 h2
    have := hle c ((hmem c).mpr ⟨h1, h2⟩)
    omega
  · right
    have hcmem : c ∈ List.range' (pos - w) (pos - (pos - w)) := by
      rw [hsplit]
      exact List.mem_append_right _ (List.mem_cons_self _ _)
    have hc := (hmem c).mp hcmem
    have hpw : List.Pairwise (· < ·) (List.range' (pos - w) (pos - (pos - w))) :=
      List.pairwise_lt_range' _ _
    rw [hsplit, List.pairwise_append] at hpw
    refine ⟨c, hc.1, hc.2, heq, hlt, ?_, ?_⟩
    · intro c' h1 h2
      have hc'mem : c' ∈ List.range' (pos - w) (pos - (pos - w)) :=
        (hmem c').mpr ⟨h1, by omega⟩
      rw [hsplit] at hc'mem
      rcases List.mem_append.mp hc'mem with h | h
      · exact hl1 c' h
      · rcases List.mem_cons.mp h with h | h
        · subst h
          omega
        · have := List.rel_of_pairwise_cons hpw.2.1 h
          omega
    · intro c' h1 h2
      have hc'mem : c' ∈ List.range' (pos - w) (pos - (pos - w)) :=
        (hmem c').mpr ⟨h1, h2⟩
      rw [hsplit] at hc'mem
      rcases List.mem_append.mp hc'mem with h | h
      · exact le_of_lt (hl1 c' h)
      · rcases List.mem_cons.mp h with h | h
        · subst h
          exact le_refl _
        · exact hl2 c' h

lemma findLongestMatch_snd_le (input : List Nat) (pos w m : Nat) :
    (findLongestMatch input pos w m).2 ≤ min m (input.length - pos) := by
  rcases findLongestMatch_char input pos w m with ⟨heq, -⟩ | ⟨c, -, -, heq, -, -, -⟩
  · rw [heq]
    exact Nat.zero_le _
  · rw [heq]
    exact computeMatchLength_le input c pos m

lemma lt_nextPos (input : List Nat) (w m pos : Nat) : pos < nextPos input w m pos := by
  unfold nextPos LZ77_MIN_MATCH_LEN
  split
  · split <;> omega
  · omega

lemma nextPos_le (input : List Nat) (w m pos : Nat) (h : pos < input.length) :
    nextPos input w m pos ≤ input.length := by
  have hle := findLongestMatch_snd_le input pos w m
  unfold nextPos LZ77_MIN_MATCH_LEN
  split
  · split <;> omega
  · omega

lemma compressTokensFrom_step (input : List Nat) (w m pos : Nat) (h : pos < input.length) :
    compressTokensFrom input w m pos =
      stepTokens input w m pos ++
        compressTokensFrom input w m (nextPos input w m pos) := by
  rw [compressTokensFrom.eq_def, dif_pos h]

lemma compressTokensFrom_stop (input : List Nat) (w m pos : Nat) (h : ¬ pos < input.length) :
    compressTokensFrom input w m pos = [] := by
  rw [compressTokensFrom.eq_def, dif_neg h]

lemma compressTokensFrom_eq_go (input : List Nat) (w m : Nat) :
    ∀ fuel pos, input.length - pos ≤ fuel →
      compressTokensFrom input w m pos = compressGo input w m fuel pos := by
  intro fuel
  induction fuel with
  | zero =>
    intro pos h
    rw [compressTokensFrom_stop input w m pos (by omega)]
    rfl
  | succ f ih =>
    intro pos h
    by_cases hpos : pos < input.length
    · rw [compressTokensFrom_step input w m pos hpos]
      simp only [compressGo, if_pos hpos]
      congr 1
      exact ih (nextPos input w m pos) (by have := lt_nextPos input w m pos; omega)
    · rw [compressTokensFrom_stop input w m pos hpos]
      simp [compressGo, hpos]

lemma compressTokens_eq_go (input : List Nat) (w m : Nat) :
    compressTokens input w m = compressGo input w m input.length 0 :=
  compressTokensFrom_eq_go input w m input.length 0 (by omega)

lemma tokenBytes_length (t : Token) : (tokenBytes t).length = tokenCount t := by
  cases t <;> rfl

lemma tokens_flatten_length (ts : List Token) :
    ((ts.map tokenBytes).flatten).length = (ts.map tokenCount).sum := by
  induction ts with
  | nil => rfl
  | cons t ts ih =>
    simp only [List.map_cons, List.flatten_cons, List.length_append, List.sum_cons,
      tokenBytes_length, ih]

lemma compressTokensFrom_reference_bounds (input : List Nat) (w m : Nat) :
    ∀ fuel pos o l, input.length - pos ≤ fuel →
      Token.reference o l ∈ compressTokensFrom input w m pos →
      1 ≤ o ∧ o ≤ w ∧ LZ77_MIN_MATCH_LEN ≤ l ∧ l ≤ m := by
  intro fuel
  induction fuel with
  | zero =>
    intro pos o l hf hmem
    rw [compressTokensFrom_stop input w m pos (by omega)] at hmem
    exact absurd hmem (List.not_mem_nil _)
  | succ f ih =>
    intro pos o l hf hmem
    by_cases hpos : pos < input.length
    · rw [compressTokensFrom_step input w m pos hpos] at hmem
      rcases List.mem_append.mp hmem with h | h
      · unfold stepTokens at h
        by_cases hm : LZ77_MIN_MATCH_LEN ≤ (findLongestMatch input pos w m).2
        · rw [if_pos hm] at h
          rcases List.mem_cons.mp h with h | h
          · rw [Token.reference.injEq] at h
            obtain ⟨ho, hl⟩ := h
            rcases findLongestMatch_char input pos w m with ⟨heq, -⟩ | ⟨c, h1, h2, heq, -, -, -⟩
            · rw [heq] at hm hl
              unfold LZ77_MIN_MATCH_LEN at hm
              omega
            · have hcle : computeMatchLength input c pos m ≤ min m (input.length - pos) :=
                computeMatchLength_le input c pos m
              rw [heq] at ho hl hm
              simp only at ho hl hm
              unfold LZ77_MIN_MATCH_LEN at hm ⊢
              omega
          · revert h
            split <;> intro h <;> simp at h
        · rw [if_neg hm] at h
          simp at h
      · exact ih (nextPos input w m pos) o l
          (by have := lt_nextPos input w m pos; omega) h
    · rw [compressTokensFrom_stop input w m pos hpos] at hmem
      exact absurd hmem (List.not_mem_nil _)

/-! ## Claim theorems -/

/-- Claim C1: the round-trip law fails on the code.  Already for the
empty input with the default parameters `(4096, 258)`, decoding the
stream produced by `compress_bytes` with the decoder of spec §4.3
(10-byte header, then token replay with byte-at-a-time overlapping
copy) does not give back the input: the encoder writes its two header
fields with `usize::to_le_bytes()` (8 bytes each), so the stream's
header is 21 bytes and the decoder misreads header bytes as tokens. -/
theorem roundTrip_fails_on_empty :
    decode (compressBytesWritten [] 4096 258) ≠ some [] := by
  simp only [compressBytesWritten, compressBody, compressTokens_eq_go]
  decide

/-- Claim C2: refuted as stated.  `compress_bytes([], 4096, 258)` writes
21 bytes, not 10: the 5 magic bytes and then each parameter as the
8-byte little-endian encoding of a `usize`, not the documented 2-byte
`u16` encoding. -/
theorem header_on_empty_is_21_bytes :
    compressBytesWritten [] 4096 258 =
      [76, 90, 55, 55, 82, 0, 16, 0, 0, 0, 0, 0, 0, 2, 1, 0, 0, 0, 0, 0, 0] ∧
    (compressBytesWritten [] 4096 258).length = 21 := by
  simp only [compressBytesWritten, compressBody, compressTokens_eq_go]
  decide

/-- Claim C3: refuted as stated.  On the empty input `compress_bytes`
returns `10` (the hard-coded `Ok(10)` of `write_header`) while it
actually writes 21 bytes to the sink, so the returned count does not
equal the number of bytes written. -/
theorem returned_count_ne_bytes_written_on_empty :
    compressBytesCount [] 4096 258 = 10 ∧
    (compressBytesWritten [] 4096 258).length = 21 ∧
    compressBytesCount [] 4096 258 ≠ (compressBytesWritten [] 4096 258).length := by
  simp only [compressBytesCount, compressBodyCount, headerCount, compressBytesWritten,
    compressBody, compressTokens_eq_go]
  decide

/-- Claim C4, counterexample to the claim as stated: on `b"aaaa"` at
position 3 the candidates at offsets 3, 2 and 1 all tie with match
length 1, and the function keeps offset 3 — the candidate found first
by the left-to-right scan is the farthest one, not the smallest-offset
(most recent) one, whose offset would be 1. -/
theorem findLongestMatch_tie_keeps_largest_offset :
    findLongestMatch [97, 97, 97, 97] 3 4096 258 = (3, 1) ∧
    computeMatchLength [97, 97, 97, 97] 2 3 258 = 1 ∧
    (findLongestMatch [97, 97, 97, 97] 3 4096 258).1 ≠ 1 := by
  decide

/-- Claim C4 (amended): when several candidates tie for the longest
match, the match finder keeps the first candidate found by the
left-to-right window scan — which is the leftmost candidate, i.e. the
one with the largest offset (oldest / farthest), not the smallest —
because only a strictly greater length replaces the current best; the
tie-break is deterministic.  Formally: a nonzero result comes from a
candidate `c` attaining the maximum length such that every candidate
scanned before it (every `c' < c` in the window) is strictly shorter. -/
theorem findLongestMatch_keeps_first_scan_candidate
    (input : List Nat) (pos w m o l : Nat)
    (heq : findLongestMatch input pos w m = (o, l)) (hl : 0 < l) :
    ∃ c, pos - w ≤ c ∧ c < pos ∧ o = pos - c ∧
      l = computeMatchLength input c pos m ∧
      (∀ c', pos - w ≤ c' → c' < c → computeMatchLength input c' pos m < l) ∧
      (∀ c', pos - w ≤ c' → c' < pos → computeMatchLength input c' pos m ≤ l) := by
  rcases findLongestMatch_char input pos w m with ⟨h0, -⟩ | ⟨c, h1, h2, h3, h4, h5, h6⟩
  · rw [h0] at heq
    have : (0 : Nat) = l := congrArg Prod.snd heq
    omega
  · have hol : (o, l) = (pos - c, computeMatchLength input c pos m) := heq.symm.trans h3
    have ho : o = pos - c := congrArg Prod.fst hol
    have hl2 : l = computeMatchLength input c pos m := congrArg Prod.snd hol
    refine ⟨c, h1, h2, ho, hl2, ?_, ?_⟩
    · intro c' a b
      rw [hl2]
      exact h5 c' a b
    · intro c' a b
      rw [hl2]
      exact h6 c' a b

/-- Claim C4, witness: the amended theorem applied at the concrete call
`find_longest_match([97, 97], 1, 4, 258) = (1, 1)`. -/
theorem findLongestMatch_keeps_first_scan_candidate_witness :
    ∃ c, 1 - 4 ≤ c ∧ c < 1 ∧ 1 = 1 - c ∧
      1 = computeMatchLength [97, 97] c 1 258 ∧
      (∀ c', 1 - 4 ≤ c' → c' < c → computeMatchLength [97, 97] c' 1 258 < 1) ∧
      (∀ c', 1 - 4 ≤ c' → c' < 1 → computeMatchLength [97, 97] c' 1 258 ≤ 1) :=
  findLongestMatch_keeps_first_scan_candidate [97, 97] 1 4 258 1 1 (by decide) (by decide)

/-- Claim C5, counterexample to the claim as stated: on input
`[97, 97]` at position 1 the single candidate has a raw common run of
length 1, below the minimum match length 3, yet the function returns
`(1, 1)` and not the sentinel `(0, 0)`. -/
theorem findLongestMatch_returns_below_min :
    findLongestMatch [97, 97] 1 4096 258 = (1, 1) ∧
    (∀ c, c < 1 → computeMatchLength [97, 97] c 1 258 < 3) ∧
    findLongestMatch [97, 97] 1 4096 258 ≠ (0, 0) := by
  decide

/-- Claim C5 (amended): `find_longest_match` itself applies no
minimum-length threshold — it can return lengths 1 or 2, and the 3-byte
minimum is enforced by its caller `compress` — but it does return the
sentinel `(0, 0)` exactly when no candidate in the window matches even
a single byte; in particular at `pos == 0` the window is empty and the
result is `(0, 0)`. -/
theorem findLongestMatch_sentinel_iff (input : List Nat) (pos w m : Nat) :
    (pos = 0 → findLongestMatch input pos w m = (0, 0)) ∧
    (findLongestMatch input pos w m = (0, 0) ↔
      ∀ c, pos - w ≤ c → c < pos → computeMatchLength input c pos m = 0) := by
  constructor
  · intro h
    subst h
    unfold findLongestMatch
    have h0 : (0 : Nat) - (0 - w) = 0 := by omega
    rw [h0]
    rfl
  · constructor
    · intro h0 c h1 h2
      rcases findLongestMatch_char input pos w m with ⟨-, hall⟩ | ⟨c', -, -, heq, hpos0, -, -⟩
      · exact hall c h1 h2
      · rw [heq] at h0
        have : computeMatchLength input c' pos m = 0 := congrArg Prod.snd h0
        omega
    · intro hall
      rcases findLongestMatch_char input pos w m with ⟨heq, -⟩ | ⟨c', h1, h2, heq, hpos0, -, -⟩
      · exact heq
      · have := hall c' h1 h2
        omega

/-- Claim C5, witness: the amended theorem applied at the concrete call
`find_longest_match([1, 2], 1, 4, 3)`, whose single candidate matches
no byte. -/
theorem findLongestMatch_sentinel_iff_witness :
    (1 = 0 → findLongestMatch [1, 2] 1 4 3 = (0, 0)) ∧
    (findLongestMatch [1, 2] 1 4 3 = (0, 0) ↔
      ∀ c, 1 - 4 ≤ c → c < 1 → computeMatchLength [1, 2] c 1 3 = 0) :=
  findLongestMatch_sentinel_iff [1, 2] 1 4 3

/-- Claim C6: every reference token emitted by the encoder satisfies
`1 ≤ offset ≤ window_size` and `3 ≤ length ≤ max_match_len`; no emitted
reference has length below the minimum match length 3. -/
theorem compress_reference_bounds (input : List Nat) (w m o l : Nat)
    (hmem : Token.reference o l ∈ compressTokens input w m) :
    1 ≤ o ∧ o ≤ w ∧ 3 ≤ l ∧ l ≤ m := by
  unfold compressTokens at hmem
  have := compressTokensFrom_reference_bounds input w m input.length 0 o l (by omega) hmem
  simpa [LZ77_MIN_MATCH_LEN] using this

/-- Claim C6, witness: the reference token `(offset 3, length 6)`
emitted on `b"abcabcabc"` with `(4096, 258)` satisfies the bounds. -/
theorem compress_reference_bounds_witness :
    1 ≤ 3 ∧ 3 ≤ 4096 ∧ 3 ≤ 6 ∧ 6 ≤ 258 :=
  compress_reference_bounds [97, 98, 99, 97, 98, 99, 97, 98, 99] 4096 258 3 6
    (by rw [compressTokens_eq_go]; decide)

/-- Claim C7: refuted as stated because of the header width.  On
`b"abcabcabc"` with `(4096, 258)` the encoder emits exactly the claimed
token bytes — literals `a`, `b`, `c`, then one reference token `0x01`
with offset 3 and length 6 as 2-byte little-endian fields and no
trailing literal — but they follow a 21-byte header (8-byte `usize`
fields), not the claimed 10-byte one. -/
theorem compress_abcabcabc_stream :
    compressBytesWritten [97, 98, 99, 97, 98, 99, 97, 98, 99] 4096 258 =
      headerBytes 4096 258 ++ [0, 97, 0, 98, 0, 99, 1, 3, 0, 6, 0] ∧
    (headerBytes 4096 258).length = 21 := by
  simp only [compressBytesWritten, compressBody, compressTokens_eq_go]
  decide

/-- Claim C8: with `candidate < pos < input.len()`, the comparison run
of `compute_match_length` is capped at `min max_len (input.len() - pos)`,
and every index `candidate + k` or `pos + k` touched under that cap is
strictly below `input.len()`, so no byte access is out of bounds. -/
theorem computeMatchLength_accesses_in_bounds
    (input : List Nat) (candidate pos maxLen : Nat)
    (hc : candidate < pos) (hp : pos < input.length) :
    computeMatchLength input candidate pos maxLen ≤ min maxLen (input.length - pos) ∧
    ∀ k, k < min maxLen (input.length - pos) →
      candidate + k < input.length ∧ pos + k < input.length := by
  refine ⟨computeMatchLength_le input candidate pos maxLen, ?_⟩
  intro k hk
  omega

/-- Claim C8, witness: the theorem applied at `input = [1, 2, 3]`,
`candidate = 0`, `pos = 1`, `max_len = 5`. -/
theorem computeMatchLength_accesses_in_bounds_witness :
    computeMatchLength [1, 2, 3] 0 1 5 ≤ min 5 ([1, 2, 3].length - 1) ∧
    ∀ k, k < min 5 ([1, 2, 3].length - 1) →
      0 + k < [1, 2, 3].length ∧ 1 + k < [1, 2, 3].length :=
  computeMatchLength_accesses_in_bounds [1, 2, 3] 0 1 5 (by decide) (by decide)

/-- Claim C9: the compression loop makes strict forward progress.  At
every position still inside the input, one iteration moves the position
strictly forward (by the match length, plus one for the mandatory
literal when bytes remain, or by exactly one for a lone literal), never
past the end of the input, and the loop's output decomposes as this
iteration's tokens followed by the rest — so the position strictly
increases until it reaches the input length and the loop terminates. -/
theorem compress_loop_progress (input : List Nat) (w m pos : Nat) (h : pos < input.length) :
    pos < nextPos input w m pos ∧ nextPos input w m pos ≤ input.length ∧
    compressTokensFrom input w m pos =
      stepTokens input w m pos ++ compressTokensFrom input w m (nextPos input w m pos) :=
  ⟨lt_nextPos input w m pos, nextPos_le input w m pos h,
    compressTokensFrom_step input w m pos h⟩

/-- Claim C9, witness: the theorem applied at `input = [5]`, `pos = 0`. -/
theorem compress_loop_progress_witness :
    0 < nextPos [5] 4 3 0 ∧ nextPos [5] 4 3 0 ≤ [5].length ∧
    compressTokensFrom [5] 4 3 0 =
      stepTokens [5] 4 3 0 ++ compressTokensFrom [5] 4 3 (nextPos [5] 4 3 0) :=
  compress_loop_progress [5] 4 3 0 (by decide)

/-- Claim C10: `compress_str` writes no header — the bytes it writes
are exactly what `compress_bytes` on the same bytes would write after
its header, and the count it returns excludes the header bytes: it is
exactly the length of the token stream it writes. -/
theorem compressStr_writes_no_header (s : List Nat) (w m : Nat) :
    compressStrWritten s w m =
      (compressBytesWritten s w m).drop (headerBytes w m).length ∧
    compressStrCount s w m = (compressStrWritten s w m).length := by
  constructor
  · unfold compressStrWritten compressBytesWritten
    rw [List.drop_left]
  · unfold compressStrCount compressStrWritten compressBodyCount compressBody
    exact (tokens_flatten_length _).symm

end LZ77
